import Mathlib

/-!
HandleBrokeredOpen: the `ggml_fopen` / `llama_open` overrides

Shallow embedding of `app/src/main/cpp/ggml_fopen_override.c`.

* A C string (`const char *`) is `Option (List Char)`: `none` is the null
  pointer, `some cs` the characters before the terminating NUL.
* The process is a record `Proc`: the descriptor table (descriptor number to
  open file description), the descriptor limit, and a ghost trace of the libc
  calls issued so far, newest last.
* libc is not part of the repository.  `strncmp`, `atoi`, `dup`, `close`,
  `fclose` are written out after ISO C / POSIX; what ISO C and POSIX leave to
  the implementation or to the file system is a field of `Libc`.
* Reading is stated on `Sys`, a process with the file offset of every open
  file description and the buffer of every stream; `read` and `fgetc` are
  written out after POSIX / ISO C.
-/

namespace HandleBrokeredOpen

/-! ## C strings -/

/-- A `const char *`: `none` is `NULL`. -/
abbrev CStr := Option (List Char)

/-- ISO C `strncmp`: compare at most `n` characters, the end of a list standing
for the terminating NUL; the sign of the result is the order of the first
differing pair. -/
def strncmp : List Char → List Char → Nat → Int
  | _, _, 0 => 0
  | [], [], _ + 1 => 0
  | [], b :: _, _ + 1 => 0 - (b.toNat : Int)
  | a :: _, [], _ + 1 => (a.toNat : Int)
  | a :: as, b :: bs, n + 1 =>
    if a = b then strncmp as bs n else (a.toNat : Int) - (b.toNat : Int)

/-- ISO C `isspace` in the "C" locale. -/
def isspace (c : Char) : Bool :=
  c = ' ' || c = '\t' || c = '\n' || c = '\x0b' || c = '\x0c' || c = '\r'

/-- ISO C `isdigit`. -/
def isdigit (c : Char) : Bool :=
  decide ('0'.toNat ≤ c.toNat ∧ c.toNat ≤ '9'.toNat)

/-- Leading-whitespace loop of `atoi`. -/
def skipSpace : List Char → List Char
  | [] => []
  | c :: cs => if isspace c then skipSpace cs else c :: cs

/-- Digit loop of `atoi`: accumulate `acc * 10 + digit` while the next
character is a digit. -/
def digitsLoop (acc : Nat) : List Char → Nat
  | [] => acc
  | c :: cs => if isdigit c then digitsLoop (acc * 10 + (c.toNat - '0'.toNat)) cs else acc

/-- Largest value of a C `int` (32 bits). -/
def INT_MAX : Int := 2147483647

/-- Smallest value of a C `int` (32 bits). -/
def INT_MIN : Int := -2147483648

/-- ISO C `atoi`: skip white space, take one optional sign, convert the digit
run.  When the value does not fit an `int` ISO C leaves the result undefined;
`ovf` is what the implementation returns then. -/
def atoi (ovf : Int → Int) (s : List Char) : Int :=
  let body := skipSpace s
  let neg : Bool := match body with
    | '-' :: _ => true
    | _ => false
  let digits := match body with
    | '-' :: t => t
    | '+' :: t => t
    | t => t
  let v : Int := if neg then -((digitsLoop 0 digits : Nat) : Int) else ((digitsLoop 0 digits : Nat) : Int)
  if INT_MIN ≤ v ∧ v ≤ INT_MAX then v else ovf v

/-! ## Process state and libc -/

/-- A `FILE *` that is not `NULL`: the stream and the descriptor it owns
(`fileno`). -/
structure FILE where
  fileno : Int
deriving DecidableEq, Repr

/-- One libc call, with its arguments. -/
inductive Call where
  | dup (oldfd : Int)
  | fdopen (fd : Int) (mode : CStr)
  | close (fd : Int)
  | fopen (fname mode : CStr)
  | open (fname : CStr) (flags : Int)
deriving DecidableEq, Repr

/-- The descriptor table of a process: descriptor number to the open file
description it refers to (`none`: not open). -/
abbrev FdTable := Nat → Option Nat

/-- Process state: descriptor table, descriptor limit (`RLIMIT_NOFILE`) and
the trace of libc calls issued so far, newest last. -/
structure Proc where
  fds : FdTable
  nofile : Nat
  calls : List Call

/-- The parts of libc that ISO C and POSIX leave open.
`atoi_overflow`: result of `atoi` on a value outside `int`.
`fdopen_ok`: whether `fdopen` accepts this descriptor and mode in this table.
`fopen_std`, `open_std`: the standard path-based opens, acting on the
descriptor table (with its limit). -/
structure Libc where
  atoi_overflow : Int → Int
  fdopen_ok : FdTable → Int → CStr → Bool
  fopen_std : CStr → CStr → FdTable → Nat → Option FILE × FdTable
  open_std : CStr → Int → FdTable → Nat → Int × FdTable

/-- Entry of the descriptor table for a C `int`; negative numbers are never
open. -/
def lookup (t : FdTable) (fd : Int) : Option Nat :=
  if 0 ≤ fd then t fd.toNat else none

/-- Table `t` with entry `d` replaced by `v`. -/
def setFd (t : FdTable) (d : Nat) (v : Option Nat) : FdTable :=
  fun i => if i = d then v else t i

/-- Lowest descriptor number below the limit that is not open. -/
def lowestFree (s : Proc) : Option Nat :=
  (List.range s.nofile).find? (fun i => (s.fds i).isNone)

/-- POSIX `dup`: the lowest unused descriptor is made to refer to the open file
description of `oldfd`; `-1` when `oldfd` is not open (`EBADF`) or no
descriptor is free (`EMFILE`), the table then unchanged. -/
def dup (oldfd : Int) (s : Proc) : Int × Proc :=
  match lookup s.fds oldfd, lowestFree s with
  | some o, some d =>
    ((d : Int), { s with fds := setFd s.fds d (some o), calls := s.calls ++ [Call.dup oldfd] })
  | _, _ => (-1, { s with calls := s.calls ++ [Call.dup oldfd] })

/-- POSIX `close`: the descriptor is released; `-1` when it is not open. -/
def close (fd : Int) (s : Proc) : Int × Proc :=
  match lookup s.fds fd with
  | some _ => (0, { s with fds := setFd s.fds fd.toNat none, calls := s.calls ++ [Call.close fd] })
  | none => (-1, { s with calls := s.calls ++ [Call.close fd] })

/-- POSIX `fdopen`: on success a stream owning `fd`; on failure `NULL`, and
`fd` is left open.  The descriptor table is not changed either way. -/
def fdopen (env : Libc) (fd : Int) (mode : CStr) (s : Proc) : Option FILE × Proc :=
  (if env.fdopen_ok s.fds fd mode then some ⟨fd⟩ else none,
   { s with calls := s.calls ++ [Call.fdopen fd mode] })

/-- ISO C `fclose`: the stream is destroyed and the descriptor it owns is
closed. -/
def fclose (f : FILE) (s : Proc) : Int × Proc :=
  close f.fileno s

/-- The standard `fopen(fname, mode)`. -/
def std_fopen (env : Libc) (fname mode : CStr) (s : Proc) : Option FILE × Proc :=
  ((env.fopen_std fname mode s.fds s.nofile).1,
   { s with fds := (env.fopen_std fname mode s.fds s.nofile).2,
            calls := s.calls ++ [Call.fopen fname mode] })

/-- The standard `open(fname, flags)`. -/
def std_open (env : Libc) (fname : CStr) (flags : Int) (s : Proc) : Int × Proc :=
  ((env.open_std fname flags s.fds s.nofile).1,
   { s with fds := (env.open_std fname flags s.fds s.nofile).2,
            calls := s.calls ++ [Call.open fname flags] })

/-! ## The two overrides -/

/-- `FILE * ggml_fopen(const char * fname, const char * mode)`. -/
def ggml_fopen (env : Libc) (fname mode : CStr) (s : Proc) : Option FILE × Proc :=
  match fname with
  | some str =>
    if strncmp str ['f', 'd', ':'] 3 = 0 then
      let original_fd := atoi env.atoi_overflow (str.drop 3)
      if original_fd > 0 then
        let r := dup original_fd s
        let fd_copy := r.1
        if fd_copy < 0 then
          (none, r.2)
        else
          let w := fdopen env fd_copy mode r.2
          match w.1 with
          | some file => (some file, w.2)
          | none => (none, (close fd_copy w.2).2)
      else std_fopen env fname mode s
    else std_fopen env fname mode s
  | none => std_fopen env fname mode s

/-- `int llama_open(const char * fname, int flags)`. -/
def llama_open (env : Libc) (fname : CStr) (flags : Int) (s : Proc) : Int × Proc :=
  match fname with
  | some str =>
    if strncmp str ['f', 'd', ':'] 3 = 0 then
      let original_fd := atoi env.atoi_overflow (str.drop 3)
      if original_fd > 0 then
        let r := dup original_fd s
        let fd_copy := r.1
        if fd_copy < 0 then
          (-1, r.2)
        else
          (fd_copy, r.2)
      else std_open env fname flags s
    else std_open env fname flags s
  | none => std_open env fname flags s

/-! ## Reading of the name, as the claims word it -/

/-- The reserved prefix `fd:`. -/
def fdMarker : List Char := ['f', 'd', ':']

/-- Value of a character read as a decimal digit. -/
def digitVal (c : Char) : Nat := c.toNat - '0'.toNat

/-- The parse in words: drop leading white space, accept one optional `+` or
`-`, take the longest run of decimal digits and read it in base 10 (an empty
run reads 0), ignore what follows. -/
def atoiSpec (s : List Char) : Int :=
  let r := s.dropWhile isspace
  let neg : Bool := r.head? = some '-'
  let r1 := if r.head? = some '-' ∨ r.head? = some '+' then r.tail else r
  let run := r1.takeWhile isdigit
  let v : Nat := Nat.ofDigits 10 ((run.map digitVal).reverse)
  if neg then -(v : Int) else (v : Int)

/-- The synthetic path `fd:N` in canonical form: the prefix followed by the
decimal digits of `N` (what `Nat.repr` prints). -/
def fdPath (N : Nat) : List Char := fdMarker ++ Nat.toDigits 10 N

/-- The descriptor a name designates for the overrides: the `atoi` value of
what follows the prefix when that is positive, `none` for every other name. -/
def sourceFd (ovf : Int → Int) (fname : CStr) : Option Int :=
  match fname with
  | some str =>
    if str.take 3 = fdMarker ∧ 0 < atoi ovf (str.drop 3) then some (atoi ovf (str.drop 3))
    else none
  | none => none

/-- The name is exactly `fd:` followed by a decimal integer without sign,
white space, leading zero or suffix, and of positive value. -/
def strictFdPath (fname : CStr) : Bool :=
  match fname with
  | some str =>
    str.take 3 == fdMarker && (str.drop 3).all isdigit && !(str.drop 3).isEmpty
      && (str.drop 3).head? != some '0'
  | none => false

/-! ## Handles, repeated opens and closes -/

/-- What a caller holds after an open: a stream (from `ggml_fopen`) or a raw
descriptor (from `llama_open`). -/
inductive Handle where
  | stream (f : FILE)
  | desc (fd : Int)
deriving DecidableEq, Repr

/-- The descriptor behind a handle. -/
def Handle.fd : Handle → Int
  | Handle.stream f => f.fileno
  | Handle.desc fd => fd

/-- Open `fname` through `ggml_fopen` (`asStream = true`) or through
`llama_open`; `none` when the override reports failure (`NULL`, or a negative
descriptor). -/
def openBy (asStream : Bool) (env : Libc) (fname mode : CStr) (flags : Int) (s : Proc) :
    Option Handle × Proc :=
  if asStream then
    ((ggml_fopen env fname mode s).1.map Handle.stream, (ggml_fopen env fname mode s).2)
  else
    (if (llama_open env fname flags s).1 < 0 then none
      else some (Handle.desc (llama_open env fname flags s).1),
     (llama_open env fname flags s).2)

/-- Close a handle the way its owner does: `fclose` for a stream, `close` for a
descriptor. -/
def closeHandle (h : Handle) (s : Proc) : Proc :=
  match h with
  | Handle.stream f => (fclose f s).2
  | Handle.desc fd => (close fd s).2

/-- The libc calls issued between two states of the trace. -/
def newCalls (before after : Proc) : List Call :=
  after.calls.drop before.calls.length

/-- POSIX frame condition on the standard opens: a descriptor that is open
stays open on the same open file description. -/
def StdOpensKeep (env : Libc) : Prop :=
  ∀ (a : CStr) (t : FdTable) (lim i v : Nat), t i = some v →
    (∀ m : CStr, (env.fopen_std a m t lim).2 i = some v) ∧
    (∀ fl : Int, (env.open_std a fl t lim).2 i = some v)

/-! ## A concrete process, for evaluation -/

/-- A libc whose file system has no file at all (every path-based open fails),
whose `fdopen` accepts the modes that start with `r`, `w` or `a`, and whose
`atoi` yields `-1` on overflow. -/
def demoLibc : Libc where
  atoi_overflow := fun _ => -1
  fdopen_ok := fun _ _ m =>
    match m with
    | some (c :: _) => c = 'r' || c = 'w' || c = 'a'
    | _ => false
  fopen_std := fun _ _ t _ => (none, t)
  open_std := fun _ _ t _ => (-1, t)

/-- A process with descriptors 0, 1, 2 and 42 open (42 on open file
description 7) and room for 64 descriptors. -/
def demoProc : Proc where
  fds := fun i => if i < 3 then some i else if i = 42 then some 7 else none
  nofile := 64
  calls := []

/-- A process whose table is full: descriptors 0 to 3 open, limit 4. -/
def fullProc : Proc where
  fds := fun i => if i < 4 then some i else none
  nofile := 4
  calls := []

/-! ## Reading through the handles -/

theorem char_toNat_inj {a b : Char} (h : a.toNat = b.toNat) : a = b := by
  have ha := Char.ofNat_toNat a
  have hb := Char.ofNat_toNat b
  rw [h] at ha
  exact ha.symm.trans hb

theorem char_sub_ne_zero {a b : Char} (h : a ≠ b) : (a.toNat : Int) - (b.toNat : Int) ≠ 0 := by
  intro h0
  apply h
  apply char_toNat_inj
  omega

theorem strncmp_step_ne {a b : Char} (h : a ≠ b) (as bs : List Char) (n : Nat) :
    strncmp (a :: as) (b :: bs) (n + 1) ≠ 0 := by
  simp only [strncmp, if_neg h]
  exact char_sub_ne_zero h

theorem strncmp_fd (str : List Char) :
    strncmp str ['f', 'd', ':'] 3 = 0 ↔ str.take 3 = fdMarker := by
  unfold fdMarker
  match str with
  | [] => simp [strncmp]
  | [a] =>
    by_cases ha : a = 'f'
    · subst ha; simp [strncmp]
    · simp [strncmp_step_ne ha, ha]
  | [a, b] =>
    by_cases ha : a = 'f'
    · subst ha
      by_cases hb : b = 'd'
      · subst hb; simp [strncmp]
      · have h := strncmp_step_ne hb [] [':'] 1
        simp [strncmp] at h ⊢
        exact h
    · simp [strncmp_step_ne ha, ha]
  | a :: b :: c :: rest =>
    by_cases ha : a = 'f'
    · subst ha
      by_cases hb : b = 'd'
      · subst hb
        by_cases hc : c = ':'
        · subst hc; simp [strncmp]
        · have h := strncmp_step_ne hc rest [] 0
          simp [strncmp, hc] at h ⊢
          exact h
      · have h := strncmp_step_ne hb (c :: rest) [':'] 1
        simp [strncmp, hb] at h ⊢
        exact h
    · simp [strncmp_step_ne ha, ha]

/-! ## Lemmas on `atoi` -/

theorem skipSpace_eq_dropWhile (s : List Char) : skipSpace s = s.dropWhile isspace := by
  induction s with
  | nil => rfl
  | cons c cs ih =>
    by_cases h : isspace c = true
    · simp [skipSpace, List.dropWhile, h, ih]
    · simp [skipSpace, List.dropWhile, h]

theorem digitsLoop_eq (cs : List Char) (acc : Nat) :
    digitsLoop acc cs =
      acc * 10 ^ (cs.takeWhile isdigit).length
        + Nat.ofDigits 10 (((cs.takeWhile isdigit).map digitVal).reverse) := by
  induction cs generalizing acc with
  | nil => simp [digitsLoop]
  | cons c cs ih =>
    by_cases h : isdigit c = true
    · simp only [digitsLoop, h, if_true, List.takeWhile_cons_of_pos, List.map_cons,
        List.reverse_cons, List.length_cons, Nat.ofDigits_append, Nat.ofDigits_singleton,
        List.length_reverse, List.length_map]
      rw [ih]
      simp only [digitVal]
      ring
    · simp [digitsLoop, h, List.takeWhile]

theorem atoi_eq (ovf : Int → Int) (s : List Char) :
    atoi ovf s =
      if INT_MIN ≤ atoiSpec s ∧ atoiSpec s ≤ INT_MAX then atoiSpec s else ovf (atoiSpec s) := by
  have key : ∀ body : List Char,
      (if (match body with | '-' :: _ => true | _ => false) = true then
          -((digitsLoop 0 (match body with | '-' :: t => t | '+' :: t => t | t => t) : Nat) : Int)
        else ((digitsLoop 0 (match body with | '-' :: t => t | '+' :: t => t | t => t) : Nat) : Int))
      = (if (decide (body.head? = some '-')) = true then
          -((Nat.ofDigits 10 ((((if body.head? = some '-' ∨ body.head? = some '+' then body.tail
              else body).takeWhile isdigit).map digitVal).reverse) : Nat) : Int)
        else ((Nat.ofDigits 10 ((((if body.head? = some '-' ∨ body.head? = some '+' then body.tail
              else body).takeWhile isdigit).map digitVal).reverse) : Nat) : Int)) := by
    intro body
    match body with
    | [] => simp [digitsLoop_eq]
    | c :: t =>
      by_cases hm : c = '-'
      · subst hm; simp [digitsLoop_eq]
      · by_cases hp : c = '+'
        · subst hp; simp [digitsLoop_eq]
        · have e1 : (match c :: t with | '-' :: _ => true | _ => false) = false := by
            split
            · rename_i heq; simp at heq; exact absurd heq.1 hm
            · rfl
          have e2 : (match c :: t with | '-' :: t => t | '+' :: t => t | t => t) = c :: t := by
            split
            · rename_i heq; simp at heq; exact absurd heq.1 hm
            · rename_i heq; simp at heq; exact absurd heq.1 hp
            · rfl
          rw [e1, e2]
          simp [digitsLoop_eq, hm, hp]
  unfold atoi atoiSpec
  simp only [skipSpace_eq_dropWhile]
  rw [key]

theorem atoi_in_range (ovf : Int → Int) (s : List Char)
    (h : INT_MIN ≤ atoiSpec s ∧ atoiSpec s ≤ INT_MAX) : atoi ovf s = atoiSpec s := by
  rw [atoi_eq, if_pos h]

/-! ## `atoi` reads back what `Nat.toDigits 10` prints -/

theorem digitChar_isdigit (k : Nat) (h : k < 10) :
    isdigit (Nat.digitChar k) = true ∧ (Nat.digitChar k).toNat - '0'.toNat = k := by
  interval_cases k <;> decide

theorem digitsLoop_toDigitsCore (fuel : Nat) :
    ∀ (n : Nat) (ds : List Char), n < fuel →
      digitsLoop 0 (Nat.toDigitsCore 10 fuel n ds) = digitsLoop n ds := by
  induction fuel with
  | zero => intro n ds h; omega
  | succ fuel ih =>
    intro n ds h
    have hd := digitChar_isdigit (n % 10) (Nat.mod_lt _ (by decide))
    simp only [Nat.toDigitsCore]
    by_cases h0 : n / 10 = 0
    · simp only [h0, if_true, digitsLoop, hd.1, hd.2]
      congr 1
      omega
    · simp only [h0, if_false]
      rw [ih (n / 10) _ (by omega)]
      simp only [digitsLoop, hd.1, if_true, hd.2]
      congr 1
      omega

theorem toDigitsCore_head (fuel : Nat) :
    ∀ (n : Nat) (ds : List Char), n < fuel →
      ∃ c t, Nat.toDigitsCore 10 fuel n ds = c :: t ∧ isdigit c = true := by
  induction fuel with
  | zero => intro n ds h; omega
  | succ fuel ih =>
    intro n ds h
    have hd := digitChar_isdigit (n % 10) (Nat.mod_lt _ (by decide))
    simp only [Nat.toDigitsCore]
    by_cases h0 : n / 10 = 0
    · simp only [h0, if_true]
      exact ⟨_, _, rfl, hd.1⟩
    · simp only [h0, if_false]
      exact ih (n / 10) _ (by omega)

theorem isdigit_not_special {c : Char} (h : isdigit c = true) :
    isspace c = false ∧ c ≠ '-' ∧ c ≠ '+' := by
  refine ⟨?_, ?_, ?_⟩
  · have hc : 48 ≤ c.toNat := by
      simp only [isdigit, decide_eq_true_eq] at h
      exact h.1
    have key : ∀ d : Char, d.toNat < 48 → c ≠ d := by
      intro d hd e
      subst e
      omega
    simp only [isspace, Bool.or_eq_false_iff, decide_eq_false_iff_not]
    exact ⟨⟨⟨⟨⟨key _ (by decide), key _ (by decide)⟩, key _ (by decide)⟩, key _ (by decide)⟩,
      key _ (by decide)⟩, key _ (by decide)⟩
  · intro e; subst e; revert h; decide
  · intro e; subst e; revert h; decide

theorem atoi_digit_head (ovf : Int → Int) (c : Char) (t : List Char) (h : isdigit c = true)
    (hfit : ((digitsLoop 0 (c :: t) : Nat) : Int) ≤ INT_MAX) :
    atoi ovf (c :: t) = ((digitsLoop 0 (c :: t) : Nat) : Int) := by
  obtain ⟨hs, hm, hp⟩ := isdigit_not_special h
  have e1 : (match c :: t with | '-' :: _ => true | _ => false) = false := by
    split
    · rename_i heq; simp at heq; exact absurd heq.1 hm
    · rfl
  have e2 : (match c :: t with | '-' :: t => t | '+' :: t => t | t => t) = c :: t := by
    split
    · rename_i heq; simp at heq; exact absurd heq.1 hm
    · rename_i heq; simp at heq; exact absurd heq.1 hp
    · rfl
  have hlo : INT_MIN ≤ ((digitsLoop 0 (c :: t) : Nat) : Int) := by
    have : (0 : Int) ≤ ((digitsLoop 0 (c :: t) : Nat) : Int) := Int.ofNat_nonneg _
    unfold INT_MIN
    omega
  have e0 : skipSpace (c :: t) = c :: t := by simp [skipSpace, hs]
  unfold atoi
  simp only [e0]
  rw [e1, e2]
  simp [hlo, hfit]

theorem atoi_toDigits (ovf : Int → Int) (N : Nat) (h : (N : Int) ≤ INT_MAX) :
    atoi ovf (Nat.toDigits 10 N) = (N : Int) := by
  obtain ⟨c, t, hct, hc⟩ := toDigitsCore_head (N + 1) N [] (by omega)
  have hv : digitsLoop 0 (Nat.toDigits 10 N) = N := by
    unfold Nat.toDigits
    rw [digitsLoop_toDigitsCore (N + 1) N [] (by omega)]
    rfl
  unfold Nat.toDigits at hv ⊢
  rw [hct] at hv ⊢
  rw [atoi_digit_head ovf c t hc (by rw [hv]; exact h), hv]

/-! ## Lemmas on the descriptor table -/

theorem lookup_nat (t : FdTable) (n : Nat) : lookup t (n : Int) = t n := by
  simp [lookup]

theorem lowestFree_some {s : Proc} {d : Nat} (h : lowestFree s = some d) :
    s.fds d = none ∧ d < s.nofile := by
  unfold lowestFree at h
  have h1 := List.find?_some h
  have h2 := List.mem_of_find?_eq_some h
  simp only [Option.isNone_iff_eq_none] at h1
  exact ⟨h1, List.mem_range.mp h2⟩

theorem dup_ok {s : Proc} {n : Int} {o d : Nat} (h1 : lookup s.fds n = some o)
    (h2 : lowestFree s = some d) :
    dup n s = ((d : Int),
      { s with fds := setFd s.fds d (some o), calls := s.calls ++ [Call.dup n] }) := by
  simp [dup, h1, h2]

theorem dup_cases (n : Int) (s : Proc) :
    ((dup n s).1 < 0 ∧ dup n s = (-1, { s with calls := s.calls ++ [Call.dup n] })) ∨
    (∃ o d : Nat, lookup s.fds n = some o ∧ s.fds d = none ∧ d < s.nofile ∧
      dup n s = ((d : Int),
        { s with fds := setFd s.fds d (some o), calls := s.calls ++ [Call.dup n] })) := by
  cases h1 : lookup s.fds n with
  | none => left; simp [dup, h1]
  | some o =>
    cases h2 : lowestFree s with
    | none => left; simp [dup, h1, h2]
    | some d =>
      right
      exact ⟨o, d, rfl, (lowestFree_some h2).1, (lowestFree_some h2).2, dup_ok h1 h2⟩

theorem setFd_same (t : FdTable) (d : Nat) (v : Option Nat) : setFd t d v d = v := by
  simp [setFd]

theorem setFd_other (t : FdTable) {d i : Nat} (v : Option Nat) (h : i ≠ d) :
    setFd t d v i = t i := by
  simp [setFd, h]

theorem setFd_undo (t : FdTable) (d : Nat) (v : Option Nat) (h : t d = none) :
    setFd (setFd t d v) d none = t := by
  funext i
  by_cases hi : i = d
  · subst hi; simp [setFd, h]
  · simp [setFd, hi]

theorem close_nat_fds (d : Nat) (s : Proc) :
    (close (d : Int) s).2.fds = setFd s.fds d none := by
  unfold close
  rw [lookup_nat]
  cases h : s.fds d with
  | none =>
    funext i
    by_cases hi : i = d
    · subst hi; simp [setFd, h]
    · simp [setFd, hi]
  | some v => simp

theorem close_calls (fd : Int) (s : Proc) :
    (close fd s).2.calls = s.calls ++ [Call.close fd] := by
  unfold close
  split <;> rfl

/-! ## The branch taken by the overrides -/

theorem sourceFd_fdPath (ovf : Int → Int) (N : Nat) (hpos : 0 < N) (hint : (N : Int) ≤ INT_MAX) :
    sourceFd ovf (some (fdPath N)) = some (N : Int) := by
  have ht : (fdPath N).take 3 = fdMarker := by simp [fdPath, fdMarker]
  have hd : (fdPath N).drop 3 = Nat.toDigits 10 N := by simp [fdPath, fdMarker]
  simp only [sourceFd, ht, hd, atoi_toDigits ovf N hint]
  simp [hpos]

theorem ggml_fopen_fallthrough (env : Libc) (fname mode : CStr) (s : Proc)
    (h : sourceFd env.atoi_overflow fname = none) :
    ggml_fopen env fname mode s = std_fopen env fname mode s := by
  cases fname with
  | none => rfl
  | some str =>
    simp only [sourceFd] at h
    simp only [ggml_fopen, strncmp_fd]
    by_cases hp : str.take 3 = fdMarker
    · by_cases ha : 0 < atoi env.atoi_overflow (str.drop 3)
      · simp [hp, ha] at h
      · simp [hp, ha]
    · simp [hp]

theorem llama_open_fallthrough (env : Libc) (fname : CStr) (flags : Int) (s : Proc)
    (h : sourceFd env.atoi_overflow fname = none) :
    llama_open env fname flags s = std_open env fname flags s := by
  cases fname with
  | none => rfl
  | some str =>
    simp only [sourceFd] at h
    simp only [llama_open, strncmp_fd]
    by_cases hp : str.take 3 = fdMarker
    · by_cases ha : 0 < atoi env.atoi_overflow (str.drop 3)
      · simp [hp, ha] at h
      · simp [hp, ha]
    · simp [hp]

theorem ggml_fopen_synthetic (env : Libc) (fname mode : CStr) (s : Proc) (n : Int)
    (h : sourceFd env.atoi_overflow fname = some n) :
    ggml_fopen env fname mode s =
      if (dup n s).1 < 0 then (none, (dup n s).2)
      else
        match (fdopen env (dup n s).1 mode (dup n s).2).1 with
        | some file => (some file, (fdopen env (dup n s).1 mode (dup n s).2).2)
        | none => (none, (close (dup n s).1 (fdopen env (dup n s).1 mode (dup n s).2).2).2) := by
  cases fname with
  | none => simp [sourceFd] at h
  | some str =>
    simp only [sourceFd] at h
    by_cases hc : str.take 3 = fdMarker ∧ 0 < atoi env.atoi_overflow (str.drop 3)
    · rw [if_pos hc] at h
      simp only [Option.some.injEq] at h
      simp only [ggml_fopen, strncmp_fd, hc.1, h, if_true]
      rw [h] at hc
      simp only [gt_iff_lt, hc.2, if_true]
    · rw [if_neg hc] at h
      simp at h

theorem llama_open_synthetic (env : Libc) (fname : CStr) (flags : Int) (s : Proc) (n : Int)
    (h : sourceFd env.atoi_overflow fname = some n) :
    llama_open env fname flags s =
      if (dup n s).1 < 0 then (-1, (dup n s).2) else ((dup n s).1, (dup n s).2) := by
  cases fname with
  | none => simp [sourceFd] at h
  | some str =>
    simp only [sourceFd] at h
    by_cases hc : str.take 3 = fdMarker ∧ 0 < atoi env.atoi_overflow (str.drop 3)
    · rw [if_pos hc] at h
      simp only [Option.some.injEq] at h
      simp only [llama_open, strncmp_fd, hc.1, h, if_true]
      rw [h] at hc
      simp only [gt_iff_lt, hc.2, if_true]
    · rw [if_neg hc] at h
      simp at h

/-- The three outcomes of `ggml_fopen` on a name that designates descriptor
`n`: duplication fails; duplication and wrapping succeed; wrapping fails. -/
theorem ggml_fopen_outcomes (env : Libc) (fname mode : CStr) (s : Proc) (n : Int)
    (h : sourceFd env.atoi_overflow fname = some n) :
    ((dup n s).1 < 0 ∧
      ggml_fopen env fname mode s = (none, { s with calls := s.calls ++ [Call.dup n] })) ∨
    (∃ o d : Nat, lookup s.fds n = some o ∧ s.fds d = none ∧ d < s.nofile ∧
      (dup n s).1 = (d : Int) ∧ (dup n s).2.fds = setFd s.fds d (some o) ∧
      ((env.fdopen_ok (setFd s.fds d (some o)) (d : Int) mode = true ∧
        ggml_fopen env fname mode s = (some ⟨(d : Int)⟩,
          { s with fds := setFd s.fds d (some o),
                   calls := s.calls ++ [Call.dup n, Call.fdopen (d : Int) mode] })) ∨
       (env.fdopen_ok (setFd s.fds d (some o)) (d : Int) mode = false ∧
        ggml_fopen env fname mode s = (none,
          { s with fds := s.fds,
                   calls := s.calls ++
                     [Call.dup n, Call.fdopen (d : Int) mode, Call.close (d : Int)] })))) := by
  rw [ggml_fopen_synthetic env fname mode s n h]
  rcases dup_cases n s with ⟨hneg, hd⟩ | ⟨o, d, ho, hfree, hlim, hd⟩
  · left
    refine ⟨hneg, ?_⟩
    rw [if_pos hneg, hd]
  · right
    refine ⟨o, d, ho, hfree, hlim, by rw [hd], by rw [hd], ?_⟩
    have hnn : ¬ ((d : Int) < 0) := by omega
    rw [hd]
    simp only [hnn, if_false, fdopen]
    cases hok : env.fdopen_ok (setFd s.fds d (some o)) (d : Int) mode with
    | true =>
      left
      simp
    | false =>
      right
      simp only [Bool.false_eq_true, if_false, true_and]
      have hfds := close_nat_fds d
        { fds := setFd s.fds d (some o), nofile := s.nofile,
          calls := s.calls ++ [Call.dup n] ++ [Call.fdopen (d : Int) mode] }
      have hcalls := close_calls (d : Int)
        { fds := setFd s.fds d (some o), nofile := s.nofile,
          calls := s.calls ++ [Call.dup n] ++ [Call.fdopen (d : Int) mode] }
      have hnof : (close (d : Int)
        { fds := setFd s.fds d (some o), nofile := s.nofile,
          calls := s.calls ++ [Call.dup n] ++ [Call.fdopen (d : Int) mode] }).2.nofile
            = s.nofile := by
        unfold close
        split <;> rfl
      simp only [setFd_undo s.fds d (some o) hfree] at hfds
      generalize (close (d : Int)
        { fds := setFd s.fds d (some o), nofile := s.nofile,
          calls := s.calls ++ [Call.dup n] ++ [Call.fdopen (d : Int) mode] }).2 = q at *
      cases q
      simp only at hfds hcalls hnof
      subst hfds hcalls hnof
      simp

/-- The two outcomes of `llama_open` on a name that designates descriptor
`n`. -/
theorem llama_open_outcomes (env : Libc) (fname : CStr) (flags : Int) (s : Proc) (n : Int)
    (h : sourceFd env.atoi_overflow fname = some n) :
    ((dup n s).1 < 0 ∧
      llama_open env fname flags s = (-1, { s with calls := s.calls ++ [Call.dup n] })) ∨
    (∃ o d : Nat, lookup s.fds n = some o ∧ s.fds d = none ∧ d < s.nofile ∧
      (dup n s).1 = (d : Int) ∧
      llama_open env fname flags s = ((d : Int),
        { s with fds := setFd s.fds d (some o), calls := s.calls ++ [Call.dup n] })) := by
  rw [llama_open_synthetic env fname flags s n h]
  rcases dup_cases n s with ⟨hneg, hd⟩ | ⟨o, d, ho, hfree, hlim, hd⟩
  · left
    refine ⟨hneg, ?_⟩
    rw [if_pos hneg, hd]
  · right
    refine ⟨o, d, ho, hfree, hlim, by rw [hd], ?_⟩
    have hnn : ¬ ((d : Int) < 0) := by omega
    rw [hd]
    simp only [hnn, if_false]

theorem newCalls_of_append {s t : Proc} {l : List Call} (h : t.calls = s.calls ++ l) :
    newCalls s t = l := by
  simp [newCalls, h]

theorem ggml_fopen_first_call (env : Libc) (fname mode : CStr) (s : Proc) :
    (newCalls s (ggml_fopen env fname mode s).2).head? =
      match sourceFd env.atoi_overflow fname with
      | some n => some (Call.dup n)
      | none => some (Call.fopen fname mode) := by
  cases h : sourceFd env.atoi_overflow fname with
  | none =>
    rw [ggml_fopen_fallthrough env fname mode s h]
    simp [newCalls, std_fopen]
  | some n =>
    rcases ggml_fopen_outcomes env fname mode s n h with
      ⟨-, hg⟩ | ⟨o, d, -, -, -, -, -, ⟨-, hg⟩ | ⟨-, hg⟩⟩ <;>
    · rw [hg]
      simp [newCalls]

theorem llama_open_first_call (env : Libc) (fname : CStr) (flags : Int) (s : Proc) :
    (newCalls s (llama_open env fname flags s).2).head? =
      match sourceFd env.atoi_overflow fname with
      | some n => some (Call.dup n)
      | none => some (Call.open fname flags) := by
  cases h : sourceFd env.atoi_overflow fname with
  | none =>
    rw [llama_open_fallthrough env fname flags s h]
    simp [newCalls, std_open]
  | some n =>
    rcases llama_open_outcomes env fname flags s n h with ⟨-, hg⟩ | ⟨o, d, -, -, -, -, hg⟩ <;>
    · rw [hg]
      simp [newCalls]

theorem sourceFd_none_of_spec (ovf : Int → Int) (fname : CStr)
    (h : fname = none ∨ ∃ str, fname = some str ∧
      (str.take 3 ≠ fdMarker ∨
        (INT_MIN ≤ atoiSpec (str.drop 3) ∧ atoiSpec (str.drop 3) ≤ 0))) :
    sourceFd ovf fname = none := by
  rcases h with h | ⟨str, h, hc⟩
  · subst h; rfl
  · subst h
    rcases hc with hp | ⟨hlo, hhi⟩
    · simp [sourceFd, hp]
    · have hr : atoi ovf (str.drop 3) = atoiSpec (str.drop 3) :=
        atoi_in_range ovf _ ⟨hlo, le_trans hhi (by decide)⟩
      have : ¬ (0 < atoi ovf (str.drop 3)) := by rw [hr]; omega
      simp [sourceFd, this]

theorem sourceFd_none_of_atoi (ovf : Int → Int) (fname : CStr)
    (h : fname = none ∨ ∃ str, fname = some str ∧
      (str.take 3 ≠ fdMarker ∨ atoi ovf (str.drop 3) ≤ 0)) :
    sourceFd ovf fname = none := by
  rcases h with h | ⟨str, h, hc⟩
  · subst h; rfl
  · subst h
    rcases hc with hp | hle
    · simp [sourceFd, hp]
    · have : ¬ (0 < atoi ovf (str.drop 3)) := by omega
      simp [sourceFd, this]

theorem close_fds (fd : Int) (s : Proc) :
    (close fd s).2.fds = fun i : Nat => if (i : Int) = fd then none else s.fds i := by
  by_cases hneg : fd < 0
  · have hl : lookup s.fds fd = none := by
      simp [lookup, not_le.mpr hneg]
    funext i
    have hi : ¬ ((i : Int) = fd) := by omega
    simp [close, hl, hi]
  · obtain ⟨d, rfl⟩ : ∃ d : Nat, fd = (d : Int) := ⟨fd.toNat, by omega⟩
    rw [close_nat_fds]
    funext i
    simp [setFd]

theorem closeHandle_fds (h : Handle) (s : Proc) :
    (closeHandle h s).fds = fun i : Nat => if (i : Int) = h.fd then none else s.fds i := by
  cases h with
  | stream f => exact close_fds f.fileno s
  | desc fd => exact close_fds fd s

/-- A successful open of a name that designates descriptor `n`, through either
override, adds one fresh descriptor on the open file description of `n`. -/
theorem openBy_success (asStream : Bool) (env : Libc) (fname mode : CStr) (flags : Int)
    (s : Proc) (n : Int) (h : Handle) (hsrc : sourceFd env.atoi_overflow fname = some n)
    (hres : (openBy asStream env fname mode flags s).1 = some h) :
    ∃ o d : Nat, lookup s.fds n = some o ∧ s.fds d = none ∧ h.fd = (d : Int) ∧
      (openBy asStream env fname mode flags s).2.fds = setFd s.fds d (some o) := by
  cases asStream with
  | true =>
    simp only [openBy, if_true] at hres ⊢
    rcases ggml_fopen_outcomes env fname mode s n hsrc with
      ⟨-, hg⟩ | ⟨o, d, ho, hfree, -, -, -, ⟨-, hg⟩ | ⟨-, hg⟩⟩
    · rw [hg] at hres; simp at hres
    · rw [hg] at hres ⊢
      simp only [Option.map_some', Option.some.injEq] at hres
      exact ⟨o, d, ho, hfree, by rw [← hres]; rfl, rfl⟩
    · rw [hg] at hres; simp at hres
  | false =>
    simp only [openBy, Bool.false_eq_true, if_false] at hres ⊢
    rcases llama_open_outcomes env fname flags s n hsrc with
      ⟨-, hg⟩ | ⟨o, d, ho, hfree, -, -, hg⟩
    · rw [hg] at hres; simp at hres
    · rw [hg] at hres ⊢
      have hnn : ¬ ((d : Int) < 0) := by omega
      simp only [hnn, if_false, Option.some.injEq] at hres
      exact ⟨o, d, ho, hfree, by rw [← hres]; rfl, rfl⟩

/-- C1. For a name `fd:N` in canonical form, with `N` a positive descriptor
(a C `int`) that is open, when `dup` succeeds: there is a fresh descriptor `d`
(different from `N`, not open before the call) such that `llama_open` returns
`d` and leaves the table equal to the old table plus `d`, bound to the open
file description of `N`; and when `fdopen` accepts `d` with the caller's mode,
`ggml_fopen` returns a stream owning `d`, with the same table. -/
theorem C1_open_duplicates (env : Libc) (N : Nat) (mode : CStr) (flags : Int) (s : Proc)
    (o : Nat) (hpos : 0 < N) (hint : (N : Int) ≤ INT_MAX) (hopen : s.fds N = some o)
    (hdup : 0 ≤ (dup (N : Int) s).1) :
    ∃ d : Nat, (dup (N : Int) s).1 = (d : Int) ∧ d ≠ N ∧ s.fds d = none ∧
      (llama_open env (some (fdPath N)) flags s).1 = (d : Int) ∧
      (llama_open env (some (fdPath N)) flags s).2.fds = setFd s.fds d (s.fds N) ∧
      (env.fdopen_ok (setFd s.fds d (s.fds N)) (d : Int) mode = true →
        (ggml_fopen env (some (fdPath N)) mode s).1 = some ⟨(d : Int)⟩ ∧
        (ggml_fopen env (some (fdPath N)) mode s).2.fds = setFd s.fds d (s.fds N)) := by
  have hsrc := sourceFd_fdPath env.atoi_overflow N hpos hint
  rcases llama_open_outcomes env (some (fdPath N)) flags s _ hsrc with
    ⟨hneg, -⟩ | ⟨o1, d, ho1, hfree, -, hd, hl⟩
  · omega
  · rw [lookup_nat, hopen] at ho1
    simp only [Option.some.injEq] at ho1
    subst ho1
    have hne : d ≠ N := by
      intro e
      rw [e, hopen] at hfree
      simp at hfree
    refine ⟨d, hd, hne, hfree, by rw [hl], by rw [hl, hopen], ?_⟩
    intro hok
    rw [hopen] at hok ⊢
    rcases ggml_fopen_outcomes env (some (fdPath N)) mode s _ hsrc with
      ⟨hneg, -⟩ | ⟨o2, d2, ho2, -, -, hd2, -, hcase⟩
    · omega
    · rw [lookup_nat, hopen] at ho2
      simp only [Option.some.injEq] at ho2
      subst ho2
      have hdd : d2 = d := by
        rw [hd] at hd2
        exact (Int.ofNat.inj hd2).symm
      subst hdd
      rcases hcase with ⟨-, hg⟩ | ⟨hbad, -⟩
      · rw [hg]
        exact ⟨rfl, rfl⟩
      · rw [hbad] at hok
        simp at hok

/-- Witness for C1: descriptor 42 of `demoProc`, mode `rb`. -/
theorem C1_open_duplicates_witness :
    ∃ d : Nat, (dup ((42 : Nat) : Int) demoProc).1 = (d : Int) ∧ d ≠ 42 ∧ demoProc.fds d = none ∧
      (llama_open demoLibc (some (fdPath 42)) 0 demoProc).1 = (d : Int) ∧
      (llama_open demoLibc (some (fdPath 42)) 0 demoProc).2.fds
        = setFd demoProc.fds d (demoProc.fds 42) ∧
      (demoLibc.fdopen_ok (setFd demoProc.fds d (demoProc.fds 42)) (d : Int) (some ['r', 'b'])
          = true →
        (ggml_fopen demoLibc (some (fdPath 42)) (some ['r', 'b']) demoProc).1 = some ⟨(d : Int)⟩ ∧
        (ggml_fopen demoLibc (some (fdPath 42)) (some ['r', 'b']) demoProc).2.fds
          = setFd demoProc.fds d (demoProc.fds 42)) :=
  C1_open_duplicates demoLibc 42 (some ['r', 'b']) 0 demoProc 7 (by decide) (by decide)
    (by decide) (by decide)

/-- C5. For a name `fd:N` in canonical form with `N > 0` whose duplication
fails, `ggml_fopen` returns `NULL` and `llama_open` returns `-1`; the only libc
call issued is `dup`, so no standard open is attempted, and the descriptor
table is the one before the call.  The sentinel differs from every successful
result: whenever `llama_open` on that name returns something other than `-1`
it is non-negative, and the descriptor of every stream `ggml_fopen` returns on
it is non-negative. -/
theorem C5_duplication_failure (env : Libc) (N : Nat) (mode : CStr) (flags : Int) (s : Proc)
    (hpos : 0 < N) (hint : (N : Int) ≤ INT_MAX) (hfail : (dup (N : Int) s).1 < 0) :
    ggml_fopen env (some (fdPath N)) mode s
      = (none, { s with calls := s.calls ++ [Call.dup (N : Int)] }) ∧
    llama_open env (some (fdPath N)) flags s
      = (-1, { s with calls := s.calls ++ [Call.dup (N : Int)] }) ∧
    (ggml_fopen env (some (fdPath N)) mode s).2.fds = s.fds ∧
    (llama_open env (some (fdPath N)) flags s).2.fds = s.fds ∧
    newCalls s (ggml_fopen env (some (fdPath N)) mode s).2 = [Call.dup (N : Int)] ∧
    newCalls s (llama_open env (some (fdPath N)) flags s).2 = [Call.dup (N : Int)] ∧
    (∀ t : Proc, (llama_open env (some (fdPath N)) flags t).1 ≠ -1 →
      0 ≤ (llama_open env (some (fdPath N)) flags t).1) ∧
    (∀ (t : Proc) (f : FILE), (ggml_fopen env (some (fdPath N)) mode t).1 = some f →
      0 ≤ f.fileno) := by
  have hsrc := sourceFd_fdPath env.atoi_overflow N hpos hint
  have hg : ggml_fopen env (some (fdPath N)) mode s
      = (none, { s with calls := s.calls ++ [Call.dup (N : Int)] }) := by
    rcases ggml_fopen_outcomes env (some (fdPath N)) mode s _ hsrc with
      ⟨-, h⟩ | ⟨o, d, -, -, -, hd, -⟩
    · exact h
    · omega
  have hl : llama_open env (some (fdPath N)) flags s
      = (-1, { s with calls := s.calls ++ [Call.dup (N : Int)] }) := by
    rcases llama_open_outcomes env (some (fdPath N)) flags s _ hsrc with
      ⟨-, h⟩ | ⟨o, d, -, -, -, hd, -⟩
    · exact h
    · omega
  refine ⟨hg, hl, by rw [hg], by rw [hl], ?_, ?_, ?_, ?_⟩
  · exact newCalls_of_append (by rw [hg])
  · exact newCalls_of_append (by rw [hl])
  · intro t hne
    rcases llama_open_outcomes env (some (fdPath N)) flags t _ hsrc with
      ⟨-, h⟩ | ⟨o, d, -, -, -, -, h⟩
    · rw [h] at hne
      exact absurd rfl hne
    · rw [h]
      exact Int.ofNat_nonneg d
  · intro t f hf
    rcases ggml_fopen_outcomes env (some (fdPath N)) mode t _ hsrc with
      ⟨-, h⟩ | ⟨o, d, -, -, -, -, -, ⟨-, h⟩ | ⟨-, h⟩⟩
    · rw [h] at hf; simp at hf
    · rw [h] at hf
      simp only [Option.some.injEq] at hf
      rw [← hf]
      exact Int.ofNat_nonneg d
    · rw [h] at hf; simp at hf

/-- Witness for C5: descriptor 41 is not open in `demoProc`. -/
theorem C5_duplication_failure_witness :
    (dup ((41 : Nat) : Int) demoProc).1 < 0 ∧
    (ggml_fopen demoLibc (some (fdPath 41)) (some ['r', 'b']) demoProc).1 = none ∧
    (llama_open demoLibc (some (fdPath 41)) 0 demoProc).1 = -1 :=
  ⟨by decide,
   by rw [(C5_duplication_failure demoLibc 41 (some ['r', 'b']) 0 demoProc (by decide)
      (by decide) (by decide)).1],
   by rw [(C5_duplication_failure demoLibc 41 (some ['r', 'b']) 0 demoProc (by decide)
      (by decide) (by decide)).2.1]⟩

/-- C6. For a name `fd:N` in canonical form with `N` open, when `dup` succeeds
with descriptor `d` but `fdopen` rejects `d` with the caller's mode,
`ggml_fopen` issues `dup`, `fdopen`, `close d` in this order and returns
`NULL`; the descriptor table after the call equals the table before it, so `d`
is not leaked, and `N` is still open on the same open file description. -/
theorem C6_wrap_failure_closes (env : Libc) (N : Nat) (mode : CStr) (s : Proc) (o : Nat)
    (hpos : 0 < N) (hint : (N : Int) ≤ INT_MAX) (hopen : s.fds N = some o)
    (hdup : 0 ≤ (dup (N : Int) s).1)
    (hwrap : (fdopen env (dup (N : Int) s).1 mode (dup (N : Int) s).2).1 = none) :
    ∃ d : Nat, (dup (N : Int) s).1 = (d : Int) ∧ s.fds d = none ∧
      (ggml_fopen env (some (fdPath N)) mode s).1 = none ∧
      (ggml_fopen env (some (fdPath N)) mode s).2.fds = s.fds ∧
      (ggml_fopen env (some (fdPath N)) mode s).2.fds d = none ∧
      (ggml_fopen env (some (fdPath N)) mode s).2.fds N = some o ∧
      newCalls s (ggml_fopen env (some (fdPath N)) mode s).2
        = [Call.dup (N : Int), Call.fdopen (d : Int) mode, Call.close (d : Int)] := by
  have hsrc := sourceFd_fdPath env.atoi_overflow N hpos hint
  rcases ggml_fopen_outcomes env (some (fdPath N)) mode s _ hsrc with
    ⟨hneg, -⟩ | ⟨o1, d, ho1, hfree, -, hd, hfds, hcase⟩
  · omega
  · rcases hcase with ⟨hok, -⟩ | ⟨-, hg⟩
    · simp only [fdopen, hd, hfds, hok, if_true] at hwrap
      simp at hwrap
    · refine ⟨d, hd, hfree, by rw [hg], by rw [hg], by rw [hg]; exact hfree,
        by rw [hg]; exact hopen, ?_⟩
      exact newCalls_of_append (by rw [hg])

/-- Witness for C6: descriptor 42 of `demoProc`, mode `zz`, which `fdopen`
rejects. -/
theorem C6_wrap_failure_closes_witness :
    ∃ d : Nat, (dup ((42 : Nat) : Int) demoProc).1 = (d : Int) ∧ demoProc.fds d = none ∧
      (ggml_fopen demoLibc (some (fdPath 42)) (some ['z', 'z']) demoProc).1 = none ∧
      (ggml_fopen demoLibc (some (fdPath 42)) (some ['z', 'z']) demoProc).2.fds = demoProc.fds ∧
      (ggml_fopen demoLibc (some (fdPath 42)) (some ['z', 'z']) demoProc).2.fds d = none ∧
      (ggml_fopen demoLibc (some (fdPath 42)) (some ['z', 'z']) demoProc).2.fds 42 = some 7 ∧
      newCalls demoProc (ggml_fopen demoLibc (some (fdPath 42)) (some ['z', 'z']) demoProc).2
        = [Call.dup ((42 : Nat) : Int), Call.fdopen (d : Int) (some ['z', 'z']),
            Call.close (d : Int)] :=
  C6_wrap_failure_closes demoLibc 42 (some ['z', 'z']) demoProc 7 (by decide) (by decide)
    (by decide) (by decide) (by decide)

/-- C2. Whatever the name, the mode or flags, the table and the outcome, a
descriptor `N` that is open before a call of `ggml_fopen` or `llama_open` is
still open after it, on the same open file description, and neither override
issues `close N`.  For a synthetic path `fd:M` nothing is assumed of libc; for any
other name the standard opens are assumed to keep open descriptors, as POSIX
says. -/
theorem C2_source_descriptor_kept (env : Libc) (fname mode : CStr) (flags : Int) (s : Proc)
    (N o : Nat) (hopen : s.fds N = some o)
    (hstd : (∃ M : Nat, 0 < M ∧ (M : Int) ≤ INT_MAX ∧ fname = some (fdPath M)) ∨
      StdOpensKeep env) :
    (ggml_fopen env fname mode s).2.fds N = some o ∧
    (llama_open env fname flags s).2.fds N = some o ∧
    Call.close (N : Int) ∉ newCalls s (ggml_fopen env fname mode s).2 ∧
    Call.close (N : Int) ∉ newCalls s (llama_open env fname flags s).2 := by
  cases h : sourceFd env.atoi_overflow fname with
  | none =>
    have hkeep : StdOpensKeep env := by
      rcases hstd with ⟨M, hM, hMi, e⟩ | hk
      · rw [e, sourceFd_fdPath _ M hM hMi] at h
        simp at h
      · exact hk
    rw [ggml_fopen_fallthrough env fname mode s h, llama_open_fallthrough env fname flags s h]
    refine ⟨(hkeep fname s.fds s.nofile N o hopen).1 mode,
      (hkeep fname s.fds s.nofile N o hopen).2 flags, ?_, ?_⟩
    · simp [newCalls, std_fopen]
    · simp [newCalls, std_open]
  | some n =>
    have hset : ∀ (d o1 : Nat), s.fds d = none → setFd s.fds d (some o1) N = some o := by
      intro d o1 hfree
      have hne : N ≠ d := by
        intro e
        rw [e, hfree] at hopen
        simp at hopen
      rw [setFd_other _ _ hne]
      exact hopen
    have hcl : ∀ d : Nat, s.fds d = none → Call.close (N : Int) ≠ Call.close (d : Int) := by
      intro d hfree e
      have e1 : (N : Int) = (d : Int) := by
        simpa using e
      have e2 : N = d := Int.ofNat.inj e1
      rw [e2, hfree] at hopen
      simp at hopen
    refine ⟨?_, ?_, ?_, ?_⟩
    · rcases ggml_fopen_outcomes env fname mode s n h with
        ⟨-, hg⟩ | ⟨o1, d, -, hfree, -, -, -, ⟨-, hg⟩ | ⟨-, hg⟩⟩
      · rw [hg]; exact hopen
      · rw [hg]; exact hset d o1 hfree
      · rw [hg]; exact hopen
    · rcases llama_open_outcomes env fname flags s n h with
        ⟨-, hg⟩ | ⟨o1, d, -, hfree, -, -, hg⟩
      · rw [hg]; exact hopen
      · rw [hg]; exact hset d o1 hfree
    · rcases ggml_fopen_outcomes env fname mode s n h with
        ⟨-, hg⟩ | ⟨o1, d, -, hfree, -, -, -, ⟨-, hg⟩ | ⟨-, hg⟩⟩
      · rw [hg]; simp [newCalls]
      · rw [hg]; simp [newCalls]
      · rw [hg]
        have := hcl d hfree
        simp [newCalls, this]
    · rcases llama_open_outcomes env fname flags s n h with
        ⟨-, hg⟩ | ⟨o1, d, -, hfree, -, -, hg⟩
      · rw [hg]; simp [newCalls]
      · rw [hg]; simp [newCalls]

/-- Witness for C2: `fd:42` on `demoProc` with a mode that `fdopen` rejects,
so that `ggml_fopen` does close a descriptor, but not 42; and `fd:0`, which
falls through to the standard opens of `demoLibc`. -/
theorem C2_source_descriptor_kept_witness :
    ((ggml_fopen demoLibc (some (fdPath 42)) (some ['z', 'z']) demoProc).2.fds 42 = some 7 ∧
    (llama_open demoLibc (some (fdPath 42)) 0 demoProc).2.fds 42 = some 7 ∧
    Call.close ((42 : Nat) : Int)
      ∉ newCalls demoProc (ggml_fopen demoLibc (some (fdPath 42)) (some ['z', 'z']) demoProc).2 ∧
    Call.close ((42 : Nat) : Int)
      ∉ newCalls demoProc (llama_open demoLibc (some (fdPath 42)) 0 demoProc).2) ∧
    ((ggml_fopen demoLibc (some (fdPath 0)) (some ['r', 'b']) demoProc).2.fds 0 = some 0 ∧
    (llama_open demoLibc (some (fdPath 0)) 0 demoProc).2.fds 0 = some 0 ∧
    Call.close ((0 : Nat) : Int)
      ∉ newCalls demoProc (ggml_fopen demoLibc (some (fdPath 0)) (some ['r', 'b']) demoProc).2 ∧
    Call.close ((0 : Nat) : Int)
      ∉ newCalls demoProc (llama_open demoLibc (some (fdPath 0)) 0 demoProc).2) :=
  ⟨C2_source_descriptor_kept demoLibc (some (fdPath 42)) (some ['z', 'z']) 0 demoProc 42 7
      (by decide) (Or.inl ⟨42, by decide, by decide, rfl⟩),
   C2_source_descriptor_kept demoLibc (some (fdPath 0)) (some ['r', 'b']) 0 demoProc 0 0
      (by decide) (Or.inr (fun _ _ _ _ _ h => ⟨fun _ => h, fun _ => h⟩))⟩

/-- C3, as stated, fails: `fd:42.gguf` is not `fd:` followed by exactly a
positive decimal integer, yet on `demoProc` (42 open) both overrides duplicate
descriptor 42 and return descriptor 3, where the standard opens of that path
fail without touching the table. -/
theorem C3_counterexample :
    strictFdPath (some "fd:42.gguf".toList) = false ∧
    (llama_open demoLibc (some "fd:42.gguf".toList) 0 demoProc).1 = 3 ∧
    (std_open demoLibc (some "fd:42.gguf".toList) 0 demoProc).1 = -1 ∧
    newCalls demoProc (llama_open demoLibc (some "fd:42.gguf".toList) 0 demoProc).2
      = [Call.dup 42] ∧
    (llama_open demoLibc (some "fd:42.gguf".toList) 0 demoProc).2.fds 3 = some 7 ∧
    (std_open demoLibc (some "fd:42.gguf".toList) 0 demoProc).2.fds 3 = none ∧
    (ggml_fopen demoLibc (some "fd:42.gguf".toList) (some "rb".toList) demoProc).1 = some ⟨3⟩ ∧
    (std_fopen demoLibc (some "fd:42.gguf".toList) (some "rb".toList) demoProc).1 = none := by
  decide

/-- C3, amended. For every name that is null, or does not begin with `fd:`, or
whose remainder after `fd:`, read the way `atoi` reads it (white space skipped,
one optional sign, the longest digit run, the rest ignored), has a value
between `INT_MIN` and 0: `ggml_fopen` and `llama_open` are the standard
`fopen` and `open` on the same arguments, and the only libc call issued is that
standard open, so nothing is duplicated.  The names `fd:`, `fd:0`, `fd:-5`,
`fd:abc`, `foo`, the empty string and null are all of this kind. -/
theorem C3_other_names_standard_open (env : Libc) (fname mode : CStr) (flags : Int) (s : Proc)
    (h : fname = none ∨ ∃ str, fname = some str ∧
      (str.take 3 ≠ fdMarker ∨
        (INT_MIN ≤ atoiSpec (str.drop 3) ∧ atoiSpec (str.drop 3) ≤ 0))) :
    (ggml_fopen env fname mode s = std_fopen env fname mode s ∧
      llama_open env fname flags s = std_open env fname flags s ∧
      newCalls s (ggml_fopen env fname mode s).2 = [Call.fopen fname mode] ∧
      newCalls s (llama_open env fname flags s).2 = [Call.open fname flags]) ∧
    (∀ x ∈ [some "fd:".toList, some "fd:0".toList, some "fd:-5".toList, some "fd:abc".toList,
            some "foo".toList, some "".toList, none],
      ggml_fopen env x mode s = std_fopen env x mode s ∧
      llama_open env x flags s = std_open env x flags s) := by
  have gen : ∀ x : CStr, sourceFd env.atoi_overflow x = none →
      ggml_fopen env x mode s = std_fopen env x mode s ∧
      llama_open env x flags s = std_open env x flags s :=
    fun x hx => ⟨ggml_fopen_fallthrough env x mode s hx, llama_open_fallthrough env x flags s hx⟩
  have hsrc := sourceFd_none_of_spec env.atoi_overflow fname h
  refine ⟨⟨(gen fname hsrc).1, (gen fname hsrc).2, ?_, ?_⟩, ?_⟩
  · rw [(gen fname hsrc).1]
    simp [newCalls, std_fopen]
  · rw [(gen fname hsrc).2]
    simp [newCalls, std_open]
  · intro x hx
    apply gen
    apply sourceFd_none_of_spec
    simp only [List.mem_cons, List.mem_singleton, List.not_mem_nil, or_false] at hx
    rcases hx with e | e | e | e | e | e | e
    · subst e; exact Or.inr ⟨_, rfl, Or.inr (by decide)⟩
    · subst e; exact Or.inr ⟨_, rfl, Or.inr (by decide)⟩
    · subst e; exact Or.inr ⟨_, rfl, Or.inr (by decide)⟩
    · subst e; exact Or.inr ⟨_, rfl, Or.inr (by decide)⟩
    · subst e; exact Or.inr ⟨_, rfl, Or.inl (by decide)⟩
    · subst e; exact Or.inr ⟨_, rfl, Or.inl (by decide)⟩
    · subst e; exact Or.inl rfl

/-- Witness for C3 amended: the name `fd:-5` on `demoProc`. -/
theorem C3_other_names_standard_open_witness :
    ggml_fopen demoLibc (some "fd:-5".toList) (some "rb".toList) demoProc
      = std_fopen demoLibc (some "fd:-5".toList) (some "rb".toList) demoProc ∧
    llama_open demoLibc (some "fd:-5".toList) 0 demoProc
      = std_open demoLibc (some "fd:-5".toList) 0 demoProc :=
  ⟨(C3_other_names_standard_open demoLibc (some "fd:-5".toList) (some "rb".toList) 0 demoProc
      (Or.inr ⟨_, rfl, Or.inr (by decide)⟩)).1.1,
   (C3_other_names_standard_open demoLibc (some "fd:-5".toList) (some "rb".toList) 0 demoProc
      (Or.inr ⟨_, rfl, Or.inr (by decide)⟩)).1.2.1⟩

/-- C4. For a null name, for a name that does not begin with `fd:`, and for a
name `fd:` + `r` on which `atoi r` is not positive, `ggml_fopen fname mode` is
the standard `fopen fname mode` (same arguments, result and table returned
unchanged) and `llama_open fname flags` is the standard `open fname flags`.
In particular `llama_open "fd:0" flags`, for read-only as for any other flags,
is `open "fd:0" flags` on the literal path and issues no `dup` of descriptor
0. -/
theorem C4_fallthrough_unmodified (env : Libc) (fname mode : CStr) (flags : Int) (s : Proc)
    (h : fname = none ∨ ∃ str, fname = some str ∧
      (str.take 3 ≠ fdMarker ∨ atoi env.atoi_overflow (str.drop 3) ≤ 0)) :
    ggml_fopen env fname mode s = std_fopen env fname mode s ∧
    (ggml_fopen env fname mode s).1 = (env.fopen_std fname mode s.fds s.nofile).1 ∧
    (ggml_fopen env fname mode s).2.fds = (env.fopen_std fname mode s.fds s.nofile).2 ∧
    newCalls s (ggml_fopen env fname mode s).2 = [Call.fopen fname mode] ∧
    llama_open env fname flags s = std_open env fname flags s ∧
    (llama_open env fname flags s).1 = (env.open_std fname flags s.fds s.nofile).1 ∧
    (llama_open env fname flags s).2.fds = (env.open_std fname flags s.fds s.nofile).2 ∧
    newCalls s (llama_open env fname flags s).2 = [Call.open fname flags] ∧
    llama_open env (some ['f', 'd', ':', '0']) flags s
      = std_open env (some ['f', 'd', ':', '0']) flags s ∧
    newCalls s (llama_open env (some ['f', 'd', ':', '0']) flags s).2
      = [Call.open (some ['f', 'd', ':', '0']) flags] ∧
    Call.dup 0 ∉ newCalls s (llama_open env (some ['f', 'd', ':', '0']) flags s).2 := by
  have hsrc := sourceFd_none_of_atoi env.atoi_overflow fname h
  have hg := ggml_fopen_fallthrough env fname mode s hsrc
  have hl := llama_open_fallthrough env fname flags s hsrc
  have h0 : sourceFd env.atoi_overflow (some ['f', 'd', ':', '0']) = none :=
    sourceFd_none_of_spec _ _ (Or.inr ⟨_, rfl, Or.inr (by decide)⟩)
  have hl0 := llama_open_fallthrough env (some ['f', 'd', ':', '0']) flags s h0
  refine ⟨hg, by rw [hg]; rfl, by rw [hg]; rfl, ?_, hl, by rw [hl]; rfl, by rw [hl]; rfl, ?_,
    hl0, ?_, ?_⟩
  · rw [hg]; simp [newCalls, std_fopen]
  · rw [hl]; simp [newCalls, std_open]
  · rw [hl0]; simp [newCalls, std_open]
  · rw [hl0]; simp [newCalls, std_open]

/-- Witness for C4: the name `fd:abc` on `demoProc`. -/
theorem C4_fallthrough_unmodified_witness :
    ggml_fopen demoLibc (some "fd:abc".toList) (some "rb".toList) demoProc
      = std_fopen demoLibc (some "fd:abc".toList) (some "rb".toList) demoProc ∧
    llama_open demoLibc (some "fd:abc".toList) 0 demoProc
      = std_open demoLibc (some "fd:abc".toList) 0 demoProc :=
  ⟨(C4_fallthrough_unmodified demoLibc (some "fd:abc".toList) (some "rb".toList) 0 demoProc
      (Or.inr ⟨_, rfl, Or.inr (by decide)⟩)).1,
   (C4_fallthrough_unmodified demoLibc (some "fd:abc".toList) (some "rb".toList) 0 demoProc
      (Or.inr ⟨_, rfl, Or.inr (by decide)⟩)).2.2.2.2.1⟩

/-- C9. `llama_open` detects and parses a synthetic path exactly as
`ggml_fopen` does: for every name (null included), every mode, flags and pair
of process states, the first libc call of `ggml_fopen` is `dup n` if and only
if the first libc call of `llama_open` is `dup n`, and both hold exactly when
`sourceFd`, a function of the name (and of libc's `atoi`) alone, yields `n`. -/
theorem C9_same_detection (env : Libc) (fname mode : CStr) (flags : Int) (s t : Proc) (n : Int) :
    ((newCalls s (ggml_fopen env fname mode s).2).head? = some (Call.dup n) ↔
      (newCalls t (llama_open env fname flags t).2).head? = some (Call.dup n)) ∧
    ((newCalls s (ggml_fopen env fname mode s).2).head? = some (Call.dup n) ↔
      sourceFd env.atoi_overflow fname = some n) ∧
    ((newCalls t (llama_open env fname flags t).2).head? = some (Call.dup n) ↔
      sourceFd env.atoi_overflow fname = some n) := by
  have hg : (newCalls s (ggml_fopen env fname mode s).2).head? = some (Call.dup n) ↔
      sourceFd env.atoi_overflow fname = some n := by
    rw [ggml_fopen_first_call]
    cases sourceFd env.atoi_overflow fname <;> simp
  have hl : (newCalls t (llama_open env fname flags t).2).head? = some (Call.dup n) ↔
      sourceFd env.atoi_overflow fname = some n := by
    rw [llama_open_first_call]
    cases sourceFd env.atoi_overflow fname <;> simp
  exact ⟨hg.trans hl.symm, hg, hl⟩

/-- C10. For every non-null name, each override takes the duplication branch
(its first libc call is a `dup`) if and only if the first three characters are
`fd:` and `atoi` of the remainder is positive, and the descriptor passed to
`dup` is that `atoi` value.  `atoi` agrees with the parse in words (`atoiSpec`:
white space skipped, one optional sign, longest digit run, rest ignored, 0
without digits) whenever that value fits a 32-bit `int`; so with the prefix and
a value between 1 and `INT_MAX` the descriptor duplicated is exactly that value.
`fd:42`, `fd:042`, `fd:+42`, `fd: 42` and `fd:42.gguf` all duplicate 42. -/
theorem C10_lenient_parse (env : Libc) (str : List Char) (mode : CStr) (flags : Int)
    (s : Proc) :
    ((∃ n, (newCalls s (ggml_fopen env (some str) mode s).2).head? = some (Call.dup n)) ↔
      (str.take 3 = fdMarker ∧ 0 < atoi env.atoi_overflow (str.drop 3))) ∧
    ((∃ n, (newCalls s (llama_open env (some str) flags s).2).head? = some (Call.dup n)) ↔
      (str.take 3 = fdMarker ∧ 0 < atoi env.atoi_overflow (str.drop 3))) ∧
    (∀ n, (newCalls s (ggml_fopen env (some str) mode s).2).head? = some (Call.dup n) →
      n = atoi env.atoi_overflow (str.drop 3)) ∧
    (∀ n, (newCalls s (llama_open env (some str) flags s).2).head? = some (Call.dup n) →
      n = atoi env.atoi_overflow (str.drop 3)) ∧
    (∀ r : List Char, INT_MIN ≤ atoiSpec r ∧ atoiSpec r ≤ INT_MAX →
      atoi env.atoi_overflow r = atoiSpec r) ∧
    (str.take 3 = fdMarker ∧ 0 < atoiSpec (str.drop 3) ∧ atoiSpec (str.drop 3) ≤ INT_MAX →
      (newCalls s (ggml_fopen env (some str) mode s).2).head?
        = some (Call.dup (atoiSpec (str.drop 3))) ∧
      (newCalls s (llama_open env (some str) flags s).2).head?
        = some (Call.dup (atoiSpec (str.drop 3)))) ∧
    (∀ x ∈ ["fd:42".toList, "fd:042".toList, "fd:+42".toList, "fd: 42".toList,
            "fd:42.gguf".toList],
      (newCalls s (ggml_fopen env (some x) mode s).2).head? = some (Call.dup 42) ∧
      (newCalls s (llama_open env (some x) flags s).2).head? = some (Call.dup 42)) := by
  have hsrc : ∀ (x : List Char) (n : Int),
      sourceFd env.atoi_overflow (some x) = some n ↔
        (x.take 3 = fdMarker ∧ 0 < atoi env.atoi_overflow (x.drop 3)) ∧
          n = atoi env.atoi_overflow (x.drop 3) := by
    intro x n
    unfold sourceFd
    by_cases hc : x.take 3 = fdMarker ∧ 0 < atoi env.atoi_overflow (x.drop 3)
    · simp only [hc, and_self, if_true, Option.some.injEq, true_and]
      exact eq_comm
    · simp [hc]
  have hg : ∀ (x : List Char) (n : Int),
      (newCalls s (ggml_fopen env (some x) mode s).2).head? = some (Call.dup n) ↔
        sourceFd env.atoi_overflow (some x) = some n := by
    intro x n
    rw [ggml_fopen_first_call]
    cases sourceFd env.atoi_overflow (some x) <;> simp
  have hl : ∀ (x : List Char) (n : Int),
      (newCalls s (llama_open env (some x) flags s).2).head? = some (Call.dup n) ↔
        sourceFd env.atoi_overflow (some x) = some n := by
    intro x n
    rw [llama_open_first_call]
    cases sourceFd env.atoi_overflow (some x) <;> simp
  have hspec : ∀ x : List Char,
      x.take 3 = fdMarker ∧ 0 < atoiSpec (x.drop 3) ∧ atoiSpec (x.drop 3) ≤ INT_MAX →
      sourceFd env.atoi_overflow (some x) = some (atoiSpec (x.drop 3)) := by
    intro x ⟨hp, hpos, hmax⟩
    have hr : atoi env.atoi_overflow (x.drop 3) = atoiSpec (x.drop 3) :=
      atoi_in_range _ _ ⟨le_trans (by decide) (le_of_lt hpos), hmax⟩
    rw [hsrc]
    rw [hr]
    exact ⟨⟨hp, hpos⟩, rfl⟩
  refine ⟨?_, ?_, ?_, ?_, ?_, ?_, ?_⟩
  · constructor
    · rintro ⟨n, hn⟩
      exact ((hsrc str n).mp ((hg str n).mp hn)).1
    · intro hc
      exact ⟨_, (hg str _).mpr ((hsrc str _).mpr ⟨hc, rfl⟩)⟩
  · constructor
    · rintro ⟨n, hn⟩
      exact ((hsrc str n).mp ((hl str n).mp hn)).1
    · intro hc
      exact ⟨_, (hl str _).mpr ((hsrc str _).mpr ⟨hc, rfl⟩)⟩
  · intro n hn
    exact ((hsrc str n).mp ((hg str n).mp hn)).2
  · intro n hn
    exact ((hsrc str n).mp ((hl str n).mp hn)).2
  · intro r hr
    exact atoi_in_range _ r hr
  · intro hc
    exact ⟨(hg str _).mpr (hspec str hc), (hl str _).mpr (hspec str hc)⟩
  · intro x hx
    have h42 : sourceFd env.atoi_overflow (some x) = some 42 := by
      simp only [List.mem_cons, List.mem_singleton, List.not_mem_nil, or_false] at hx
      rcases hx with e | e | e | e | e <;>
      · subst e
        exact hspec _ (by decide)
    exact ⟨(hg x 42).mpr h42, (hl x 42).mpr h42⟩

/-- Witness for C10: `fd: +42.gguf` on `demoProc` duplicates descriptor 42
from both overrides. -/
theorem C10_lenient_parse_witness :
    (newCalls demoProc
        (ggml_fopen demoLibc (some "fd: +42.gguf".toList) (some "rb".toList) demoProc).2).head?
      = some (Call.dup (atoiSpec ("fd: +42.gguf".toList.drop 3))) ∧
    (newCalls demoProc (llama_open demoLibc (some "fd: +42.gguf".toList) 0 demoProc).2).head?
      = some (Call.dup (atoiSpec ("fd: +42.gguf".toList.drop 3))) :=
  (C10_lenient_parse demoLibc "fd: +42.gguf".toList (some "rb".toList) 0 demoProc).2.2.2.2.2.1
    (by decide)

/-- C7. For a name `fd:N` in canonical form with `N` open, two opens in
sequence, each through `ggml_fopen` or `llama_open` (`k1`, `k2`: any of the four
combinations), both successful, give handles on distinct descriptors `d1` and
`d2`, both different from `N`, all three open on the open file description of
`N`.  Closing either handle releases its descriptor only; closing both, in
either order, gives the descriptor table from before the two opens. -/
theorem C7_two_opens_independent (env : Libc) (N : Nat) (k1 k2 : Bool) (mode1 mode2 : CStr)
    (flags1 flags2 : Int) (s s1 s2 : Proc) (o : Nat) (h1 h2 : Handle)
    (hpos : 0 < N) (hint : (N : Int) ≤ INT_MAX) (hopen : s.fds N = some o)
    (hfirst : openBy k1 env (some (fdPath N)) mode1 flags1 s = (some h1, s1))
    (hsecond : openBy k2 env (some (fdPath N)) mode2 flags2 s1 = (some h2, s2)) :
    ∃ d1 d2 : Nat, h1.fd = (d1 : Int) ∧ h2.fd = (d2 : Int) ∧ d1 ≠ d2 ∧ d1 ≠ N ∧ d2 ≠ N ∧
      s.fds d1 = none ∧ s.fds d2 = none ∧
      s2.fds d1 = some o ∧ s2.fds d2 = some o ∧ s2.fds N = some o ∧
      (closeHandle h1 s2).fds d1 = none ∧ (closeHandle h1 s2).fds d2 = some o ∧
      (closeHandle h1 s2).fds N = some o ∧
      (closeHandle h2 s2).fds d2 = none ∧ (closeHandle h2 s2).fds d1 = some o ∧
      (closeHandle h2 s2).fds N = some o ∧
      (closeHandle h2 (closeHandle h1 s2)).fds = s.fds ∧
      (closeHandle h1 (closeHandle h2 s2)).fds = s.fds := by
  have hsrc := sourceFd_fdPath env.atoi_overflow N hpos hint
  obtain ⟨o1, d1, ho1, hf1, hd1, ht1⟩ :=
    openBy_success k1 env (some (fdPath N)) mode1 flags1 s _ h1 hsrc (by rw [hfirst])
  rw [lookup_nat, hopen] at ho1
  simp only [Option.some.injEq] at ho1
  subst ho1
  rw [hfirst] at ht1
  simp only at ht1
  have hne1 : d1 ≠ N := by
    intro e
    rw [e, hopen] at hf1
    simp at hf1
  have hopen1 : s1.fds N = some o := by
    rw [ht1, setFd_other _ _ (Ne.symm hne1)]
    exact hopen
  obtain ⟨o2, d2, ho2, hf2, hd2, ht2⟩ :=
    openBy_success k2 env (some (fdPath N)) mode2 flags2 s1 _ h2 hsrc (by rw [hsecond])
  rw [lookup_nat, hopen1] at ho2
  simp only [Option.some.injEq] at ho2
  subst ho2
  rw [hsecond] at ht2
  simp only at ht2
  have hne12 : d1 ≠ d2 := by
    intro e
    rw [ht1, ← e, setFd_same] at hf2
    simp at hf2
  have hne2 : d2 ≠ N := by
    intro e
    rw [e, hopen1] at hf2
    simp at hf2
  have hf2s : s.fds d2 = none := by
    rw [ht1, setFd_other _ _ (Ne.symm hne12)] at hf2
    exact hf2
  have c12 : ¬ ((d1 : Int) = (d2 : Int)) := by omega
  have c21 : ¬ ((d2 : Int) = (d1 : Int)) := by omega
  have cN1 : ¬ ((N : Int) = (d1 : Int)) := by omega
  have cN2 : ¬ ((N : Int) = (d2 : Int)) := by omega
  refine ⟨d1, d2, hd1, hd2, hne12, hne1, hne2, hf1, hf2s, ?_, ?_, ?_, ?_, ?_, ?_, ?_, ?_, ?_,
    ?_, ?_⟩
  · simp [ht2, ht1, setFd, hne12]
  · simp [ht2, ht1, setFd]
  · simp [ht2, ht1, setFd, Ne.symm hne1, Ne.symm hne2, hopen]
  · simp [closeHandle_fds, hd1]
  · simp [closeHandle_fds, hd1, c21, ht2, setFd]
  · simp [closeHandle_fds, hd1, cN1, ht2, ht1, setFd, Ne.symm hne1, Ne.symm hne2, hopen]
  · simp [closeHandle_fds, hd2]
  · simp [closeHandle_fds, hd2, c12, ht2, ht1, setFd, hne12]
  · simp [closeHandle_fds, hd2, cN2, ht2, ht1, setFd, Ne.symm hne1, Ne.symm hne2, hopen]
  · funext i
    simp only [closeHandle_fds, hd1, hd2, ht2, ht1, setFd, Nat.cast_inj]
    by_cases e2 : i = d2
    · simp [e2, hf2s]
    · by_cases e1 : i = d1
      · simp [e1, hf1]
      · simp [e1, e2]
  · funext i
    simp only [closeHandle_fds, hd1, hd2, ht2, ht1, setFd, Nat.cast_inj]
    by_cases e2 : i = d2
    · simp [e2, hf2s]
    · by_cases e1 : i = d1
      · simp [e1, hf1]
      · simp [e1, e2]

/-- Witness for C7: `fd:42` on `demoProc`, first as a stream (descriptor 3),
then as a raw descriptor (descriptor 4). -/
theorem C7_two_opens_independent_witness :
    ∃ d1 d2 : Nat, (Handle.stream ⟨3⟩).fd = (d1 : Int) ∧ (Handle.desc 4).fd = (d2 : Int) ∧
      d1 ≠ d2 ∧ d1 ≠ 42 ∧ d2 ≠ 42 ∧ demoProc.fds d1 = none ∧ demoProc.fds d2 = none ∧
      (llama_open demoLibc (some (fdPath 42)) 0
        (ggml_fopen demoLibc (some (fdPath 42)) (some ['r', 'b']) demoProc).2).2.fds d1 = some 7 ∧
      (llama_open demoLibc (some (fdPath 42)) 0
        (ggml_fopen demoLibc (some (fdPath 42)) (some ['r', 'b']) demoProc).2).2.fds d2 = some 7 ∧
      (llama_open demoLibc (some (fdPath 42)) 0
        (ggml_fopen demoLibc (some (fdPath 42)) (some ['r', 'b']) demoProc).2).2.fds 42 = some 7 ∧
      (closeHandle (Handle.stream ⟨3⟩) (llama_open demoLibc (some (fdPath 42)) 0
        (ggml_fopen demoLibc (some (fdPath 42)) (some ['r', 'b']) demoProc).2).2).fds d1 = none ∧
      (closeHandle (Handle.stream ⟨3⟩) (llama_open demoLibc (some (fdPath 42)) 0
        (ggml_fopen demoLibc (some (fdPath 42)) (some ['r', 'b']) demoProc).2).2).fds d2 = some 7 ∧
      (closeHandle (Handle.stream ⟨3⟩) (llama_open demoLibc (some (fdPath 42)) 0
        (ggml_fopen demoLibc (some (fdPath 42)) (some ['r', 'b']) demoProc).2).2).fds 42 = some 7 ∧
      (closeHandle (Handle.desc 4) (llama_open demoLibc (some (fdPath 42)) 0
        (ggml_fopen demoLibc (some (fdPath 42)) (some ['r', 'b']) demoProc).2).2).fds d2 = none ∧
      (closeHandle (Handle.desc 4) (llama_open demoLibc (some (fdPath 42)) 0
        (ggml_fopen demoLibc (some (fdPath 42)) (some ['r', 'b']) demoProc).2).2).fds d1 = some 7 ∧
      (closeHandle (Handle.desc 4) (llama_open demoLibc (some (fdPath 42)) 0
        (ggml_fopen demoLibc (some (fdPath 42)) (some ['r', 'b']) demoProc).2).2).fds 42 = some 7 ∧
      (closeHandle (Handle.desc 4) (closeHandle (Handle.stream ⟨3⟩)
        (llama_open demoLibc (some (fdPath 42)) 0
          (ggml_fopen demoLibc (some (fdPath 42)) (some ['r', 'b']) demoProc).2).2)).fds
        = demoProc.fds ∧
      (closeHandle (Handle.stream ⟨3⟩) (closeHandle (Handle.desc 4)
        (llama_open demoLibc (some (fdPath 42)) 0
          (ggml_fopen demoLibc (some (fdPath 42)) (some ['r', 'b']) demoProc).2).2)).fds
        = demoProc.fds :=
  C7_two_opens_independent demoLibc 42 true false (some ['r', 'b']) none 0 0 demoProc
    (ggml_fopen demoLibc (some (fdPath 42)) (some ['r', 'b']) demoProc).2
    (llama_open demoLibc (some (fdPath 42)) 0
      (ggml_fopen demoLibc (some (fdPath 42)) (some ['r', 'b']) demoProc).2).2
    7 (Handle.stream ⟨3⟩) (Handle.desc 4) (by decide) (by decide) (by decide)
    (Prod.ext (by decide) rfl) (Prod.ext (by decide) rfl)

end HandleBrokeredOpen
